import Mathlib

/-!
Verification of the MinervaAI shopping platform against its specification.

The frontend utilities (currency normalization, cart operations, B2B search
form validation) are embedded directly from the JavaScript sources under
`src/frontend`.  The backend recommendation / budget-explainer service is not
part of the provided sources (only its documentation and frontend callers
are), so those components are modelled from the specification, as marked on
each definition.
-/

namespace Minerva

/-! ## Character-level helpers shared by the string embeddings -/

/-- Case-insensitive character equality, as used by a JavaScript regex with
the `i` flag on the ASCII currency tokens. -/
def lowerEq (a b : Char) : Bool := a.toLower = b.toLower

/-- Does `s` start with token `tok`, compared case-insensitively? -/
def startsWithCI : List Char → List Char → Bool
  | [], _ => true
  | _ :: _, [] => false
  | t :: ts, c :: cs => lowerEq t c && startsWithCI ts cs

/-- Fuelled worker for `stripCI`: remove every (non-overlapping, leftmost)
case-insensitive occurrence of `tok`, continuing after each match, exactly as
`String.replace(new RegExp(tok, "gi"), "")` does for a plain token. -/
def stripCIFuel : Nat → List Char → List Char → List Char
  | 0, _, s => s
  | _ + 1, _, [] => []
  | n + 1, tok, c :: cs =>
    if startsWithCI tok (c :: cs) then
      stripCIFuel n tok (List.drop tok.length (c :: cs))
    else
      c :: stripCIFuel n tok cs

/-- Global case-insensitive removal of a non-empty plain token.  The fuel
`s.length` suffices because every step consumes at least one character. -/
def stripCI (tok : List Char) (s : List Char) : List Char :=
  if tok.isEmpty then s else stripCIFuel s.length tok s

/-- Collapse every run of whitespace to a single space, as
`String.replace(/\s+/g, " ")`.  The flag records whether the previous
character was part of a whitespace run already emitted as one space. -/
def collapseWSGo : Bool → List Char → List Char
  | _, [] => []
  | prevWS, c :: cs =>
    if c.isWhitespace then
      if prevWS then collapseWSGo true cs
      else ' ' :: collapseWSGo true cs
    else c :: collapseWSGo false cs

/-- JavaScript `String.replace(/\s+/g, " ")`. -/
def collapseWS (l : List Char) : List Char := collapseWSGo false l

/-- JavaScript `String.trim()`: drop whitespace from both ends. -/
def trimChars (l : List Char) : List Char :=
  ((l.dropWhile Char.isWhitespace).reverse.dropWhile Char.isWhitespace).reverse

/-! ## Currency utilities (src/frontend/src/utils/currencyUtils.js) -/

/-- The currency tokens of `normalizePriceDisplay`, in source order.  The
source also lists `"$"`, but `new RegExp("$", "gi")` is the end-of-string
anchor and matches only the empty string, so replacing it removes nothing;
it is therefore omitted here as a no-op. -/
def currencyTokens : List (List Char) :=
  ['€'.toString.data, "EUR".data, "euro".data, "euros".data,
   "USD".data, "dollar".data, "dollars".data,
   '£'.toString.data, "GBP".data, "pound".data, "pounds".data,
   '¥'.toString.data, "JPY".data, "yen".data, "DT".data]

/-- The cleaning pipeline of `normalizePriceDisplay`: trim, strip every
currency token case-insensitively (in source order), collapse whitespace,
trim again. -/
def cleanedPrice (s : String) : List Char :=
  trimChars (collapseWS (currencyTokens.foldl (fun acc tok => stripCI tok acc) (trimChars s.data)))

/-- The characters of the literal `"TND"`. -/
def tndChars : List Char := ['T', 'N', 'D']

/-- `normalizePriceDisplay` from `currencyUtils.js`.  `none` models a
`null`/`undefined` argument; a string argument is falsy in JavaScript exactly
when it is empty. -/
def normalizePriceDisplay (priceStr : Option String) : String :=
  match priceStr with
  | none => "0 TND"
  | some s =>
    if s = "" then "0 TND"
    else
      let price := cleanedPrice s
      if price = [] then "0 TND"
      else if tndChars <:+: s.data.map Char.toUpper then
        if tndChars <:+: price then String.mk price else String.mk (price ++ ' ' :: tndChars)
      else String.mk (price ++ ' ' :: tndChars)

/-- JavaScript `String.replace(/[€$£¥]/g, "")`: inside a character class the
dollar sign is literal, so all four symbols are removed. -/
def stripCurrencyChars (l : List Char) : List Char :=
  l.filter (fun c => !(c = '€' || c = '$' || c = '£' || c = '¥'))

/-- JavaScript `String.replace(/[A-Za-z]/g, "")`: remove ASCII letters. -/
def stripLetters (l : List Char) : List Char :=
  l.filter (fun c => !(('A' ≤ c && c ≤ 'Z') || ('a' ≤ c && c ≤ 'z')))

/-- JavaScript `String.replace(",", ".")` with a string pattern replaces only
the first comma. -/
def replaceFirstComma : List Char → List Char
  | [] => []
  | c :: cs => if c = ',' then '.' :: cs else c :: replaceFirstComma cs

/-- The cleaning pipeline of `extractPriceValue`. -/
def cleanedNumeric (s : String) : List Char :=
  trimChars (replaceFirstComma (stripLetters (stripCurrencyChars s.data)))

/-- Numeric value of a digit string (most significant first). -/
def digitsVal (ds : List Char) : ℕ :=
  ds.foldl (fun a c => 10 * a + (c.toNat - 48)) 0

/-- A JavaScript number as produced by `parseFloat` on a digit match: a
finite double (idealized here as an exact rational) or positive Infinity.
A match of `\d+\.?\d*` has no sign and at least one digit, so negative
values and `NaN` cannot arise. -/
inductive JSNum where
  | finite (val : ℚ)
  | infinity
deriving DecidableEq

/-- Nonnegativity of such a number; `Infinity` lies above 0. -/
def JSNum.nonneg : JSNum → Prop
  | JSNum.finite v => 0 ≤ v
  | JSNum.infinity => True

/-- The least magnitude at which IEEE-754 double rounding overflows:
`parseFloat` returns `Infinity` for decimal values at or above
`2^1024 - 2^970` (round-to-nearest-even carries them past the largest
finite double). -/
def doubleOverflow : ℚ := 2 ^ 1024 - 2 ^ 970

/-- Exact decimal value of the regex match `\d+\.?\d*` starting at a digit:
an integer part, optionally a dot and a (possibly empty) fractional part. -/
def exactVal (rest : List Char) : ℚ :=
  let d1 := rest.takeWhile Char.isDigit
  match rest.dropWhile Char.isDigit with
  | '.' :: r2 =>
    let d2 := r2.takeWhile Char.isDigit
    (digitsVal d1 : ℚ) + (digitsVal d2 : ℚ) / (10 : ℚ) ^ d2.length
  | _ => (digitsVal d1 : ℚ)

/-- `parseFloat` applied to the matched text: the exact decimal value,
saturating to `Infinity` at the IEEE-754 double overflow threshold.
In-range values are idealized as exact rationals (the claims concern sign
and finiteness, not rounding precision); the overflow of digit strings
beyond the double range is modelled faithfully. -/
def parseLeadingNum (rest : List Char) : JSNum :=
  if doubleOverflow ≤ exactVal rest then JSNum.infinity
  else JSNum.finite (exactVal rest)

/-- Suffix of `l` starting at its leftmost digit (where the regex
`\d+\.?\d*` first matches), or `none` when `l` has no digit. -/
def findDigit : List Char → Option (List Char)
  | [] => none
  | c :: cs => if c.isDigit then some (c :: cs) else findDigit cs

/-- `extractPriceValue` from `currencyUtils.js`: strip currency symbols and
letters, turn the first comma into a dot, trim, then parse the first
`\d+\.?\d*` match; `0` when the argument is falsy or no match exists. -/
def extractPriceValue (priceStr : Option String) : JSNum :=
  match priceStr with
  | none => JSNum.finite 0
  | some s =>
    if s = "" then JSNum.finite 0
    else
      match findDigit (cleanedNumeric s) with
      | none => JSNum.finite 0
      | some rest => parseLeadingNum rest

/-! ## B2C cart (src/frontend/src/components/b2c/Cart.jsx and SearchBar.jsx) -/

/-- A catalog product as consumed by `addToCart` in `SearchBar.jsx`. -/
structure ProductB2C where
  id : ℕ
  name : String
  price : ℚ
deriving DecidableEq

/-- A cart entry: the spread product plus its `quantity` field. -/
structure CartItemB2C where
  id : ℕ
  name : String
  price : ℚ
  quantity : ℤ
deriving DecidableEq

/-- `addToCart` from `SearchBar.jsx`: if an item with the product's id is
already in the cart, increment its quantity, otherwise append the product
with quantity 1. -/
def addToCart (cart : List CartItemB2C) (p : ProductB2C) : List CartItemB2C :=
  match cart.find? (fun item => item.id = p.id) with
  | some _ =>
    cart.map (fun item =>
      if item.id = p.id then { item with quantity := item.quantity + 1 } else item)
  | none => cart ++ [⟨p.id, p.name, p.price, 1⟩]

/-- `removeItem` from `Cart.jsx`: keep the items whose id differs. -/
def removeItem (cart : List CartItemB2C) (productId : ℕ) : List CartItemB2C :=
  cart.filter (fun item => item.id ≠ productId)

/-- `updateQuantity` from `Cart.jsx`: a requested quantity below 1 removes
the item; otherwise the matching item's quantity is overwritten. -/
def updateQuantity (cart : List CartItemB2C) (productId : ℕ) (newQuantity : ℤ) :
    List CartItemB2C :=
  if newQuantity < 1 then removeItem cart productId
  else cart.map (fun item =>
    if item.id = productId then { item with quantity := newQuantity } else item)

/-- `getTotal` from `Cart.jsx`: `cart.reduce((t, item) => t + item.price *
item.quantity, 0)`.  The component stores no total field; this reduction
over the current items is the only way a total is ever produced. -/
def getTotal (cart : List CartItemB2C) : ℚ :=
  cart.foldl (fun total item => total + item.price * (item.quantity : ℚ)) 0

/-- The cart mutations offered by the UI. -/
inductive CartOp where
  | add (p : ProductB2C)
  | remove (productId : ℕ)
  | update (productId : ℕ) (newQuantity : ℤ)
deriving DecidableEq

/-- Apply one cart operation. -/
def applyOp (cart : List CartItemB2C) : CartOp → List CartItemB2C
  | CartOp.add p => addToCart cart p
  | CartOp.remove productId => removeItem cart productId
  | CartOp.update productId q => updateQuantity cart productId q

/-- Apply a finite sequence of cart operations in order. -/
def applyOps (cart : List CartItemB2C) (ops : List CartOp) : List CartItemB2C :=
  ops.foldl applyOp cart

/-- The specification-side total: the sum over the items of unit price times
quantity. -/
def sumItems (cart : List CartItemB2C) : ℚ :=
  (cart.map (fun item => item.price * (item.quantity : ℚ))).sum

/-! ## B2B search form (src/frontend/src/components/SearchForm.jsx) -/

/-- The form state of `SearchForm.jsx`.  The text fields are strings; the two
price fields are modelled at the point after `parseFloat`: `none` is an empty
input (JavaScript `undefined` after the conditional), `some v` a numeric
input parsing to `v`.  Inputs parsing to `NaN` are outside the model; for
them the `min > max` comparison is false in JavaScript, so they never reach
the rejection branch either. -/
structure SearchFormData where
  name : String
  description : String
  category : String
  min_price : Option ℚ
  max_price : Option ℚ
  sort_by : String
deriving DecidableEq

/-- The `searchData` object built by `handleSubmit`. -/
structure SearchData where
  query : Option String
  name : Option String
  description : Option String
  category : Option String
  min_price : Option ℚ
  max_price : Option ℚ
  sort_by : String
deriving DecidableEq

/-- Outcome of `handleSubmit`: the empty-form alert, the price-order alert,
or the call to `onSearch` with the prepared data. -/
inductive SubmitOutcome where
  | rejectedNoData
  | rejectedPriceOrder
  | searched (d : SearchData)
deriving DecidableEq

/-- JavaScript truthiness of a possibly-undefined number: `undefined` and `0`
are falsy. -/
def jsNumTruthy : Option ℚ → Bool
  | none => false
  | some v => v ≠ 0

/-- JavaScript `a || b` on optional strings where the empty string is falsy. -/
def jsStrOr (a b : Option String) : Option String :=
  match a with
  | some s => if s = "" then b else some s
  | none => b

/-- Lift a form text field to the `field || undefined` idiom. -/
def strOpt (s : String) : Option String := if s = "" then none else some s

/-- `handleSubmit` from `SearchForm.jsx`: require at least one filled field,
build `searchData`, then reject when `searchData.min_price &&
searchData.max_price && searchData.min_price > searchData.max_price`
(JavaScript truthiness: a price of 0 is falsy and skips the check). -/
def handleSubmit (f : SearchFormData) : SubmitOutcome :=
  let hasData := f.name ≠ "" ∨ f.description ≠ "" ∨ f.category ≠ "" ∨
    f.min_price.isSome ∨ f.max_price.isSome
  if ¬hasData then SubmitOutcome.rejectedNoData
  else
    let searchData : SearchData :=
      { query := jsStrOr (strOpt f.name) (strOpt f.description)
        name := strOpt f.name
        description := strOpt f.description
        category := strOpt f.category
        min_price := f.min_price
        max_price := f.max_price
        sort_by := if f.sort_by = "" then "relevance" else f.sort_by }
    if jsNumTruthy searchData.min_price && jsNumTruthy searchData.max_price &&
        (match searchData.min_price, searchData.max_price with
         | some mn, some mx => decide (mn > mx)
         | _, _ => false) then
      SubmitOutcome.rejectedPriceOrder
    else SubmitOutcome.searched searchData

/-- Discriminator: did `handleSubmit` reach `onSearch`? -/
def isSearched : SubmitOutcome → Bool
  | SubmitOutcome.searched _ => true
  | _ => false

/-! ## Budget / cart explainer

The backend service (`explainable_ai_service.py`, exposed through
`/api/shopping/cart/...`) is not among the provided sources — only its
documentation and frontend callers are — so this section is modelled from
the specification. -/

/-- Budget status classification values. -/
inductive BStatus where
  | safe
  | warning
  | over
deriving DecidableEq

/-- Budget severity values. -/
inductive BSeverity where
  | severityNone
  | low
  | medium
  | high
  | critical
deriving DecidableEq

/-- A cart item of the budget explainer. -/
structure ExplCartItem where
  product_id : ℕ
  product_name : String
  unit_price : ℚ
  quantity : ℤ
deriving DecidableEq

/-- A cart with a budget ceiling. -/
structure ExplCart where
  items : List ExplCartItem
  budget : ℚ
deriving DecidableEq

/-- Line total of a cart item. -/
def lineTotal (item : ExplCartItem) : ℚ := item.unit_price * (item.quantity : ℚ)

/-- Cart total: the sum over the items of unit price times quantity. -/
def cartTotal (cart : ExplCart) : ℚ := (cart.items.map lineTotal).sum

/-- Modelled from the spec: `percentage_used = cart.total / cart.budget *
100` (§4.6).  With a zero budget the rational division yields 0; the
classification below special-cases that configuration as the spec directs. -/
def percentageUsed (cart : ExplCart) : ℚ := cartTotal cart / cart.budget * 100

/-- The result of `analyze_budget_status`. -/
structure BudgetStatus where
  status : BStatus
  severity : BSeverity
  percentage_used : ℚ
deriving DecidableEq

/-- Modelled from the spec: `analyze_budget_status` of the missing backend
`explainable_ai_service.py`.  State machine over `percentage_used` (§4.6):
below 75 safe/none, then warning low/medium/high on [75,85), [85,95),
[95,100], and over/critical above 100; a zero budget with a positive-cost
cart is immediately over (§7). -/
def analyze_budget_status (cart : ExplCart) : BudgetStatus :=
  let pct := percentageUsed cart
  if cart.budget = 0 then
    if 0 < cartTotal cart then ⟨BStatus.over, BSeverity.critical, pct⟩
    else ⟨BStatus.safe, BSeverity.severityNone, pct⟩
  else if pct < 75 then ⟨BStatus.safe, BSeverity.severityNone, pct⟩
  else if pct < 85 then ⟨BStatus.warning, BSeverity.low, pct⟩
  else if pct < 95 then ⟨BStatus.warning, BSeverity.medium, pct⟩
  else if pct ≤ 100 then ⟨BStatus.warning, BSeverity.high, pct⟩
  else ⟨BStatus.over, BSeverity.critical, pct⟩

/-- A corpus product as seen by the spec-modelled core (§3). -/
structure SpecProduct where
  id : ℕ
  name : String
  category : String
  brand : String
  price : ℚ
deriving DecidableEq

/-- The report of `explain_item_impact`. -/
structure ImpactReport where
  item_cost : ℚ
  new_total : ℚ
  new_percentage : ℚ
  can_add : Bool
deriving DecidableEq

/-- Modelled from the spec: `explain_item_impact(cart, candidate, quantity)`
of the missing backend service (§4.6): `item_cost = candidate.price ×
quantity`, `new_total = cart.total + item_cost`, `can_add = new_total ≤
cart.budget`.  It is a total function: every input yields a report. -/
def explain_item_impact (cart : ExplCart) (candidate : SpecProduct)
    (quantity : ℤ) : ImpactReport :=
  let item_cost := candidate.price * (quantity : ℚ)
  let new_total := cartTotal cart + item_cost
  { item_cost := item_cost
    new_total := new_total
    new_percentage := new_total / cart.budget * 100
    can_add := decide (new_total ≤ cart.budget) }

/-! ## Deduplicator (spec §4.1; the ingestion service is not under the
provided sources) -/

/-- Modelled from the spec: normalized product name — lowercased,
punctuation-stripped (only letters, digits and spaces kept), whitespace
collapsed, trimmed (§4.1). -/
def normalizeName (s : String) : String :=
  String.mk (trimChars (collapseWS
    ((s.data.map Char.toLower).filter (fun c => c.isAlphanum || c = ' '))))

/-- Modelled from the spec: two products are duplicates when their
normalized names are equal and their prices differ by less than a 1%
relative tolerance (§4.1).  The tolerance is taken relative to the larger
price, which makes the relation symmetric and accepts the spec's example of
1.00 versus 1.005. -/
def isDupProd (a b : SpecProduct) : Bool :=
  normalizeName a.name = normalizeName b.name ∧
    |a.price - b.price| < (1 / 100 : ℚ) * max a.price b.price

/-- Worker for `dedupe`: `kept` holds the records already emitted; a record
duplicating one of them is dropped, otherwise it is emitted and joins
`kept`. -/
def dedupeAux (kept : List SpecProduct) : List SpecProduct → List SpecProduct
  | [] => []
  | p :: rest =>
    if kept.any (fun q => isDupProd q p) then dedupeAux kept rest
    else p :: dedupeAux (kept ++ [p]) rest

/-- Modelled from the spec: `dedupe` of the missing ingestion code keeps the
first-seen record of each duplicate group, preserving order (§4.1). -/
def dedupe (products : List SpecProduct) : List SpecProduct :=
  dedupeAux [] products

/-! ## Recommendation engine (spec §4.4–§4.5; the backend
`main_usershop.py` recommendation service is not under the provided
sources) -/

/-- Insertion into a list sorted by the boolean relation `r`. -/
def orderedInsert (r : α → α → Bool) (a : α) : List α → List α
  | [] => [a]
  | b :: l => if r a b then a :: b :: l else b :: orderedInsert r a l

/-- Insertion sort by the boolean relation `r`. -/
def orderSort (r : α → α → Bool) : List α → List α
  | [] => []
  | a :: l => orderedInsert r a (orderSort r l)

/-- A parsed query of the spec-modelled core (§3). -/
structure SpecQuery where
  free_text : String
  min_price : Option ℚ
  max_price : Option ℚ
deriving DecidableEq

/-- Modelled from the spec: the hard price-window filter variant (§4.4,
§8): a candidate passes when its price lies within the given bounds. -/
def priceWindowOk (q : SpecQuery) (p : SpecProduct) : Bool :=
  (match q.min_price with
   | none => true
   | some mn => decide (mn ≤ p.price)) &&
  (match q.max_price with
   | none => true
   | some mx => decide (p.price ≤ mx))

/-- Modelled from the spec: keyword score — the fraction of query tokens
that occur as substrings of the product's name, category and brand (§4.4,
step 2); 0 for an empty free text. -/
def keywordScore (q : SpecQuery) (p : SpecProduct) : ℚ :=
  let toks := (q.free_text.toLower.splitOn " ").filter (fun t => t ≠ "")
  if toks.isEmpty then 0
  else
    let hay := (p.name ++ " " ++ p.category ++ " " ++ p.brand).toLower
    ((toks.countP (fun t => decide (t.data <:+: hay.data)) : ℚ)) / (toks.length : ℚ)

/-- Modelled from the spec: price-fit score (§4.4, step 3) — 1 with no
bounds or inside the window, otherwise a penalty decaying with the relative
distance to the nearest bound, floored at 0. -/
def priceFitScore (q : SpecQuery) (p : SpecProduct) : ℚ :=
  match q.min_price, q.max_price with
  | none, none => 1
  | _, _ =>
    if priceWindowOk q p then 1
    else
      let dist :=
        match q.min_price, q.max_price with
        | some mn, _ =>
          if p.price < mn then (mn - p.price) / mn
          else match q.max_price with
               | some mx => (p.price - mx) / mx
               | none => 0
        | none, some mx => (p.price - mx) / mx
        | none, none => 0
      max 0 (1 - dist)

/-- Modelled from the spec: composite score with the documented weights
0.6, 0.25 and 0.15 (§4.4, step 4).  The vector similarity of each candidate
to the query is supplied by the opaque embedding provider as `sim`. -/
def compositeScore (sim : SpecProduct → ℚ) (q : SpecQuery) (p : SpecProduct) : ℚ :=
  (6 / 10 : ℚ) * sim p + (25 / 100 : ℚ) * keywordScore q p +
    (15 / 100 : ℚ) * priceFitScore q p

/-- Modelled from the spec: the ranking relation — composite score
descending, ties broken by price ascending then id ascending (§4.4). -/
def rankBefore (sim : SpecProduct → ℚ) (q : SpecQuery) (a b : SpecProduct) : Bool :=
  let sa := compositeScore sim q a
  let sb := compositeScore sim q b
  decide (sb < sa) ||
    (decide (sa = sb) &&
      (decide (a.price < b.price) ||
        (decide (a.price = b.price) && decide (a.id ≤ b.id))))

/-- The ranked list returned by `recommend` (§4.5). -/
structure RankedList where
  items : List SpecProduct
  total_found : ℕ
  total_after_filter : ℕ
deriving DecidableEq

/-- Modelled from the spec: `recommend(query, limit)` of the missing
backend recommendation service (§4.5): take the retrieved candidates, apply
the price window, score and sort them, truncate to `limit`, and report
`total_found` (pre-filter count) and `total_after_filter` (post
price-window count). -/
def recommend (sim : SpecProduct → ℚ) (corpus : List SpecProduct)
    (q : SpecQuery) (limit : ℕ) : RankedList :=
  let filtered := corpus.filter (priceWindowOk q)
  { items := (orderSort (rankBefore sim q) filtered).take limit
    total_found := corpus.length
    total_after_filter := filtered.length }

/-! ## Optimization suggestions (spec §4.6; the backend service is not
under the provided sources) -/

/-- Confidence labels of the suggestion strategies. -/
inductive Confidence where
  | high
  | medium
deriving DecidableEq

/-- An optimization alternative (§4.6): remove the most expensive item,
replace an item with a cheaper corpus product, or reduce a quantity. -/
inductive Alternative where
  | removeItem (item : ExplCartItem) (savings : ℚ)
  | replaceItem (item : ExplCartItem) (alt : SpecProduct) (savings : ℚ)
  | reduceQuantity (item : ExplCartItem) (suggested_quantity : ℤ) (savings : ℚ)
deriving DecidableEq

/-- Savings carried by an alternative. -/
def altSavings : Alternative → ℚ
  | Alternative.removeItem _ s => s
  | Alternative.replaceItem _ _ s => s
  | Alternative.reduceQuantity _ _ s => s

/-- Confidence of an alternative: a fixed mapping from the strategy (§4.6). -/
def altConfidence : Alternative → Confidence
  | Alternative.removeItem _ _ => Confidence.high
  | Alternative.replaceItem _ _ _ => Confidence.medium
  | Alternative.reduceQuantity _ _ _ => Confidence.medium

/-- Pick from `a :: l` an element preferred by the boolean relation
`better`; its generic membership lemma serves both suggestion strategies. -/
def pickBy (better : α → α → Bool) (a : α) (l : List α) : α :=
  l.foldl (fun x y => if better y x then y else x) a

/-- Modelled from the spec: a cheaper corpus alternative of the same
category for a cart item, when one strictly cheaper exists (§4.6,
`replace`).  The item's own category is recovered from the corpus through
its product id. -/
def cheaperAlt (corpus : List SpecProduct) (item : ExplCartItem) :
    Option SpecProduct :=
  match corpus.find? (fun p => p.id = item.product_id) with
  | none => none
  | some orig =>
    match corpus.filter (fun p => p.category = orig.category ∧ p.price < item.unit_price) with
    | [] => none
    | p :: ps => some (pickBy (fun a b => decide (a.price < b.price)) p ps)

/-- Modelled from the spec: `get_optimization_suggestions(cart, corpus)`
(§4.6).  Three classes are generated independently — remove the single most
expensive item (savings: its line total), replace items having a strictly
cheaper corpus match (savings: price delta times quantity), reduce the
quantity of items with quantity above 1 to one less (savings: the unit
price) — then merged and sorted by savings descending. -/
def get_optimization_suggestions (cart : ExplCart) (corpus : List SpecProduct) :
    List Alternative :=
  let removes :=
    match cart.items with
    | [] => []
    | i :: rest =>
      let m := pickBy (fun a b => decide (lineTotal b < lineTotal a)) i rest
      [Alternative.removeItem m (lineTotal m)]
  let replaces := cart.items.filterMap (fun item =>
    match cheaperAlt corpus item with
    | some alt =>
      some (Alternative.replaceItem item alt
        ((item.unit_price - alt.price) * (item.quantity : ℚ)))
    | none => none)
  let reduces := (cart.items.filter (fun item => 1 < item.quantity)).map
    (fun item => Alternative.reduceQuantity item (item.quantity - 1) item.unit_price)
  orderSort (fun a b => decide (altSavings b ≤ altSavings a))
    (removes ++ replaces ++ reduces)

/-- Resulting cart total after applying an alternative's savings. -/
def resultingTotal (cart : ExplCart) (alt : Alternative) : ℚ :=
  cartTotal cart - altSavings alt

/-! ## Helper lemmas -/

theorem orderedInsert_length (r : α → α → Bool) (a : α) (l : List α) :
    (orderedInsert r a l).length = l.length + 1 := by
  induction l with
  | nil => rfl
  | cons b l ih =>
    simp only [orderedInsert]
    split
    · rfl
    · simp [ih]

theorem orderSort_length (r : α → α → Bool) (l : List α) :
    (orderSort r l).length = l.length := by
  induction l with
  | nil => rfl
  | cons a l ih => simp [orderSort, orderedInsert_length, ih]

theorem mem_orderedInsert (r : α → α → Bool) (a b : α) (l : List α) :
    b ∈ orderedInsert r a l ↔ b = a ∨ b ∈ l := by
  induction l with
  | nil => simp [orderedInsert]
  | cons c l ih =>
    simp only [orderedInsert]
    split
    · simp [List.mem_cons]
    · simp only [List.mem_cons, ih]
      tauto

theorem mem_orderSort (r : α → α → Bool) (b : α) (l : List α) :
    b ∈ orderSort r l ↔ b ∈ l := by
  induction l with
  | nil => simp [orderSort]
  | cons a l ih => simp [orderSort, mem_orderedInsert, ih]

theorem getTotal_foldl (l : List CartItemB2C) (a : ℚ) :
    l.foldl (fun total item => total + item.price * (item.quantity : ℚ)) a =
      a + sumItems l := by
  induction l generalizing a with
  | nil => simp [sumItems]
  | cons i l ih => simp [List.foldl_cons, ih, sumItems, add_assoc]

/-! ## Claim theorems -/

/-- C3: after every finite sequence of cart operations, the cart's total as
computed by `getTotal` equals the sum over the current items of unit price
times quantity.  `getTotal` is a reduction over the current item list — the
component keeps no stored total, so no stale cached value can be served. -/
theorem cart_total_always_recomputed (ops : List CartOp) (init : List CartItemB2C) :
    getTotal (applyOps init ops) = sumItems (applyOps init ops) := by
  simp [getTotal, getTotal_foldl]

/-- C2: `explain_item_impact` is total and its report satisfies
`item_cost = candidate.price × quantity`, `new_total = cart.total +
item_cost`, and `can_add` holds exactly when `new_total ≤ cart.budget`. -/
theorem explain_item_impact_correct (cart : ExplCart) (candidate : SpecProduct)
    (quantity : ℤ) :
    (explain_item_impact cart candidate quantity).item_cost =
      candidate.price * (quantity : ℚ) ∧
    (explain_item_impact cart candidate quantity).new_total =
      cartTotal cart + (explain_item_impact cart candidate quantity).item_cost ∧
    ((explain_item_impact cart candidate quantity).can_add = true ↔
      (explain_item_impact cart candidate quantity).new_total ≤ cart.budget) := by
  refine ⟨rfl, rfl, ?_⟩
  simp [explain_item_impact]

/-- C6: the list returned by `recommend` has length at most `limit`, and its
length equals `min limit total_after_filter`, where `total_after_filter` is
the post-price-window candidate count reported by the result. -/
theorem recommend_topk_bound (sim : SpecProduct → ℚ) (corpus : List SpecProduct)
    (q : SpecQuery) (limit : ℕ) :
    (recommend sim corpus q limit).items.length =
      min limit (recommend sim corpus q limit).total_after_filter ∧
    (recommend sim corpus q limit).items.length ≤ limit := by
  constructor
  · simp [recommend, List.length_take, orderSort_length]
  · simp [recommend, List.length_take]

/-- Quantity invariant of a cart: every present item has quantity at least 1. -/
def QtyInv (cart : List CartItemB2C) : Prop := ∀ i ∈ cart, 1 ≤ i.quantity

theorem addToCart_qtyInv (cart : List CartItemB2C) (p : ProductB2C)
    (h : QtyInv cart) : QtyInv (addToCart cart p) := by
  intro i hi
  unfold addToCart at hi
  rcases hfind : cart.find? (fun item => item.id = p.id) with _ | x <;>
      rw [hfind] at hi
  · rcases List.mem_append.mp hi with hc | hs
    · exact h i hc
    · simp only [List.mem_singleton] at hs
      subst hs
      exact le_refl 1
  · rcases List.mem_map.mp hi with ⟨j, hj, rfl⟩
    split
    · show (1 : ℤ) ≤ j.quantity + 1
      have := h j hj
      omega
    · exact h j hj

theorem removeItem_qtyInv (cart : List CartItemB2C) (productId : ℕ)
    (h : QtyInv cart) : QtyInv (removeItem cart productId) := by
  intro i hi
  exact h i (List.mem_of_mem_filter hi)

theorem updateQuantity_qtyInv (cart : List CartItemB2C) (productId : ℕ)
    (q : ℤ) (h : QtyInv cart) : QtyInv (updateQuantity cart productId q) := by
  intro i hi
  unfold updateQuantity at hi
  split at hi
  · exact removeItem_qtyInv cart productId h i hi
  · rcases List.mem_map.mp hi with ⟨j, hj, rfl⟩
    split
    · simpa using by omega
    · exact h j hj

theorem applyOps_qtyInv (ops : List CartOp) (cart : List CartItemB2C)
    (h : QtyInv cart) : QtyInv (applyOps cart ops) := by
  induction ops generalizing cart with
  | nil => exact h
  | cons op ops ih =>
    refine ih (applyOp cart op) ?_
    cases op with
    | add p => exact addToCart_qtyInv cart p h
    | remove productId => exact removeItem_qtyInv cart productId h
    | update productId q => exact updateQuantity_qtyInv cart productId q h

/-- C8: every cart item has quantity at least 1 and the invariant is
preserved by every cart operation (and so holds after any operation
sequence from the empty cart); `addToCart` appends the product with
quantity 1 when absent and increments the matching quantity when present;
and `updateQuantity` with a requested quantity below 1 removes the item
instead of storing it. -/
theorem cart_quantity_invariant :
    (∀ cart p, QtyInv cart → QtyInv (addToCart cart p)) ∧
    (∀ cart productId q, QtyInv cart → QtyInv (updateQuantity cart productId q)) ∧
    (∀ cart productId, QtyInv cart → QtyInv (removeItem cart productId)) ∧
    (∀ ops, QtyInv (applyOps [] ops)) ∧
    (∀ cart p, cart.find? (fun item => item.id = p.id) = none →
      addToCart cart p = cart ++ [⟨p.id, p.name, p.price, 1⟩]) ∧
    (∀ cart p x, cart.find? (fun item => item.id = p.id) = some x →
      addToCart cart p = cart.map (fun item =>
        if item.id = p.id then { item with quantity := item.quantity + 1 } else item)) ∧
    (∀ cart productId q, q < 1 →
      updateQuantity cart productId q = removeItem cart productId) := by
  refine ⟨addToCart_qtyInv, updateQuantity_qtyInv, removeItem_qtyInv,
    fun ops => applyOps_qtyInv ops [] (by intro i hi; cases hi),
    ?_, ?_, ?_⟩
  · intro cart p hfind
    unfold addToCart
    rw [hfind]
  · intro cart p x hfind
    unfold addToCart
    rw [hfind]
  · intro cart productId q hq
    unfold updateQuantity
    rw [if_pos hq]

/-- Witness for C8 at a concrete cart: an update request with quantity 0
removes the item rather than storing an out-of-range quantity. -/
theorem cart_quantity_invariant_witness :
    updateQuantity [⟨7, "milk", 3, 2⟩] 7 0 = removeItem [⟨7, "milk", 3, 2⟩] 7 :=
  cart_quantity_invariant.2.2.2.2.2.2 [⟨7, "milk", 3, 2⟩] 7 0 (by decide)

/-- C4 as stated is false on the code: with `min_price = 5` and
`max_price = 0` both given and `min_price > max_price`, `handleSubmit`
submits the query instead of rejecting it, because the JavaScript guard
`searchData.min_price && searchData.max_price && ...` treats the price 0 as
falsy and skips the comparison. -/
theorem min_max_validation_skipped_on_zero_bound :
    (⟨"tv", "", "", some 5, some 0, "relevance"⟩ : SearchFormData).min_price = some 5 ∧
    (⟨"tv", "", "", some 5, some 0, "relevance"⟩ : SearchFormData).max_price = some 0 ∧
    (0 : ℚ) < 5 ∧
    isSearched (handleSubmit ⟨"tv", "", "", some 5, some 0, "relevance"⟩) = true ∧
    handleSubmit ⟨"tv", "", "", some 5, some 0, "relevance"⟩ ≠
      SubmitOutcome.rejectedPriceOrder := by
  refine ⟨rfl, rfl, by norm_num, rfl, ?_⟩
  intro h
  simp [handleSubmit, jsNumTruthy] at h

/-- C4 amended: when both price bounds are given and both are nonzero,
`min_price > max_price` is rejected synchronously as a validation error
(the query is never passed to `onSearch`); and a query with
`min_price ≤ max_price` is never rejected on these grounds. -/
theorem price_order_validation_nonzero :
    (∀ (f : SearchFormData) (mn mx : ℚ), f.min_price = some mn →
      f.max_price = some mx → mn ≠ 0 → mx ≠ 0 → mx < mn →
      handleSubmit f = SubmitOutcome.rejectedPriceOrder) ∧
    (∀ (f : SearchFormData) (mn mx : ℚ), f.min_price = some mn →
      f.max_price = some mx → mn ≤ mx →
      handleSubmit f ≠ SubmitOutcome.rejectedPriceOrder) := by
  constructor
  · intro f mn mx hmn hmx hmn0 hmx0 hlt
    simp only [handleSubmit, hmn, hmx, jsNumTruthy]
    rw [if_neg (by simp), if_pos]
    simp only [Bool.and_eq_true, decide_eq_true_eq]
    exact ⟨⟨hmn0, hmx0⟩, hlt⟩
  · intro f mn mx hmn hmx hle
    simp only [handleSubmit, hmn, hmx, jsNumTruthy]
    split
    · intro h
      cases h
    · rw [if_neg]
      · intro h
        cases h
      · simp only [Bool.and_eq_true, decide_eq_true_eq]
        rintro ⟨-, hgt⟩
        exact absurd hle (not_le.mpr hgt)

/-- Witness for the amended C4: a form with `min_price = 7` and
`max_price = 3` is rejected with the price-order validation error. -/
theorem price_order_validation_nonzero_witness :
    handleSubmit ⟨"", "tv stand", "", some 7, some 3, ""⟩ =
      SubmitOutcome.rejectedPriceOrder :=
  price_order_validation_nonzero.1 ⟨"", "tv stand", "", some 7, some 3, ""⟩ 7 3
    rfl rfl (by norm_num) (by norm_num) (by norm_num)

/-- C1: the budget classification is a pure function of `percentage_used =
cart.total / cart.budget * 100`: below 75 it is safe/none, on [75,85)
warning/low, on [85,95) warning/medium, on [95,100] warning/high, above
100 over/critical — the biconditionals make the buckets non-overlapping —
and the edge cases are defined: an empty cart yields `percentage_used = 0`
and status safe, and a zero budget with a positive-cost cart yields status
over. -/
theorem analyze_budget_status_classification (cart : ExplCart) :
    (0 < cart.budget →
      ((analyze_budget_status cart).percentage_used = percentageUsed cart ∧
       (percentageUsed cart < 75 ↔
         (analyze_budget_status cart).status = BStatus.safe ∧
         (analyze_budget_status cart).severity = BSeverity.severityNone) ∧
       (75 ≤ percentageUsed cart ∧ percentageUsed cart < 85 ↔
         (analyze_budget_status cart).status = BStatus.warning ∧
         (analyze_budget_status cart).severity = BSeverity.low) ∧
       (85 ≤ percentageUsed cart ∧ percentageUsed cart < 95 ↔
         (analyze_budget_status cart).status = BStatus.warning ∧
         (analyze_budget_status cart).severity = BSeverity.medium) ∧
       (95 ≤ percentageUsed cart ∧ percentageUsed cart ≤ 100 ↔
         (analyze_budget_status cart).status = BStatus.warning ∧
         (analyze_budget_status cart).severity = BSeverity.high) ∧
       (100 < percentageUsed cart ↔
         (analyze_budget_status cart).status = BStatus.over ∧
         (analyze_budget_status cart).severity = BSeverity.critical))) ∧
    (cart.items = [] →
      percentageUsed cart = 0 ∧ (analyze_budget_status cart).status = BStatus.safe) ∧
    (cart.budget = 0 → 0 < cartTotal cart →
      (analyze_budget_status cart).status = BStatus.over ∧
      (analyze_budget_status cart).severity = BSeverity.critical) := by
  refine ⟨fun hb => ?_, fun he => ?_, fun hb0 hpos => ?_⟩
  · have hbne : cart.budget ≠ 0 := ne_of_gt hb
    simp only [analyze_budget_status, if_neg hbne]
    split_ifs with h1 h2 h3 h4 <;>
      refine ⟨rfl, ?_, ?_, ?_, ?_, ?_⟩ <;>
      constructor <;>
      intro h <;>
      simp_all <;>
      linarith
  · have htot : cartTotal cart = 0 := by simp [cartTotal, he]
    have hpz : percentageUsed cart = 0 := by simp [percentageUsed, htot]
    refine ⟨hpz, ?_⟩
    simp only [analyze_budget_status]
    split_ifs with hb hpos h1 <;> first
      | rfl
      | (exfalso; rw [htot] at hpos; exact lt_irrefl 0 hpos)
      | (exfalso; rw [hpz] at h1; norm_num at h1)
  · simp [analyze_budget_status, hb0, hpos]

/-- Witness for C1 at the spec's example 3: a cart with budget 50 and total
48 (96 percent used) is classified warning/high. -/
theorem analyze_budget_status_classification_witness :
    (analyze_budget_status ⟨[⟨1, "basket", 48, 1⟩], 50⟩).status = BStatus.warning ∧
    (analyze_budget_status ⟨[⟨1, "basket", 48, 1⟩], 50⟩).severity = BSeverity.high :=
  (((analyze_budget_status_classification ⟨[⟨1, "basket", 48, 1⟩], 50⟩).1
      (by norm_num)).2.2.2.2.1).mp
    (by constructor <;> · show (_ : Prop); norm_num [percentageUsed, cartTotal, lineTotal])

theorem dedupeAux_sublist (l : List SpecProduct) :
    ∀ kept, (dedupeAux kept l).Sublist l := by
  induction l with
  | nil => intro kept; exact List.Sublist.refl []
  | cons p rest ih =>
    intro kept
    simp only [dedupeAux]
    split_ifs with h
    · exact (ih kept).cons p
    · exact (ih (kept ++ [p])).cons₂ p

theorem dedupeAux_idem (l : List SpecProduct) :
    ∀ kept, dedupeAux kept (dedupeAux kept l) = dedupeAux kept l := by
  induction l with
  | nil => intro kept; rfl
  | cons p rest ih =>
    intro kept
    simp only [dedupeAux]
    split_ifs with h
    · exact ih kept
    · simp only [dedupeAux]
      rw [if_neg h, ih (kept ++ [p])]

theorem dedupeAux_repr (l : List SpecProduct) :
    ∀ kept p, p ∈ l →
      kept.any (fun q => isDupProd q p) = true ∨
      (dedupeAux kept l).any (fun q => decide (q = p) || isDupProd q p) = true := by
  induction l with
  | nil => intro kept p hp; cases hp
  | cons a rest ih =>
    intro kept p hp
    simp only [dedupeAux]
    rcases List.mem_cons.mp hp with rfl | hp'
    · split_ifs with h
      · exact Or.inl h
      · right
        simp [List.any_cons]
    · split_ifs with h
      · exact ih kept p hp'
      · rcases ih (kept ++ [a]) p hp' with hk | hout
        · rw [List.any_append] at hk
          rcases Bool.or_eq_true_iff.mp hk with hk' | ha
          · exact Or.inl hk'
          · right
            simp only [List.any_cons, List.any_nil, Bool.or_false] at ha
            simp [List.any_cons, ha]
        · right
          simp [List.any_cons, hout]

/-- C5: `dedupe` maps the empty list to the empty list, returns an
order-preserving sublist of its input, keeps for every input record a
first-seen representative (the record itself or an earlier-kept duplicate
of it), and is idempotent. -/
theorem dedupe_first_seen_idempotent (l : List SpecProduct) :
    dedupe ([] : List SpecProduct) = [] ∧
    (dedupe l).Sublist l ∧
    (∀ p ∈ l, (dedupe l).any (fun q => decide (q = p) || isDupProd q p) = true) ∧
    dedupe (dedupe l) = dedupe l := by
  refine ⟨rfl, dedupeAux_sublist l [], ?_, dedupeAux_idem l []⟩
  intro p hp
  rcases dedupeAux_repr l [] p hp with h | h
  · simp at h
  · exact h

/-- Witness for C5 at the spec's example 2: of two records named Bread with
prices 1.00 and 1.005, the dropped second record has its kept duplicate in
the deduplicated list. -/
theorem dedupe_first_seen_idempotent_witness :
    (dedupe [⟨1, "Bread", "", "", 1⟩, ⟨2, "Bread", "", "", 1005 / 1000⟩]).any
      (fun q => decide (q = ⟨2, "Bread", "", "", 1005 / 1000⟩) ||
        isDupProd q ⟨2, "Bread", "", "", 1005 / 1000⟩) = true :=
  (dedupe_first_seen_idempotent
      [⟨1, "Bread", "", "", 1⟩, ⟨2, "Bread", "", "", 1005 / 1000⟩]).2.2.1
    ⟨2, "Bread", "", "", 1005 / 1000⟩
    (List.mem_cons_of_mem _ (List.mem_cons_self _ _))

theorem pickBy_mem (better : α → α → Bool) (l : List α) :
    ∀ a, pickBy better a l ∈ a :: l := by
  induction l with
  | nil => intro a; exact List.mem_cons_self a []
  | cons y l ih =>
    intro a
    have hstep : pickBy better a (y :: l) =
        pickBy better (if better y a then y else a) l := rfl
    rw [hstep]
    rcases List.mem_cons.mp (ih (if better y a then y else a)) with he | hl
    · rw [he]
      split_ifs
      · exact List.mem_cons_of_mem a (List.mem_cons_self y l)
      · exact List.mem_cons_self a (y :: l)
    · exact List.mem_cons_of_mem a (List.mem_cons_of_mem y hl)

theorem cheaperAlt_spec (corpus : List SpecProduct) (item : ExplCartItem)
    (alt : SpecProduct) (h : cheaperAlt corpus item = some alt) :
    alt ∈ corpus ∧ alt.price < item.unit_price := by
  unfold cheaperAlt at h
  split at h
  · cases h
  · split at h
    · cases h
    · rename_i orig hfind p ps hfilt
      injection h with h'
      subst h'
      have hmem : pickBy (fun a b => decide (a.price < b.price)) p ps ∈ p :: ps :=
        pickBy_mem _ ps p
      rw [← hfilt] at hmem
      have hf := List.mem_filter.mp hmem
      exact ⟨hf.1, (of_decide_eq_true hf.2).2⟩

theorem lineTotal_nonneg (item : ExplCartItem) (hp : 0 ≤ item.unit_price)
    (hq : 1 ≤ item.quantity) : 0 ≤ lineTotal item := by
  have hq' : (0 : ℚ) ≤ (item.quantity : ℚ) := by exact_mod_cast (by omega : (0 : ℤ) ≤ item.quantity)
  exact mul_nonneg hp hq'

theorem lineTotal_le_cartTotal (cart : ExplCart)
    (hItems : ∀ i ∈ cart.items, 0 ≤ i.unit_price ∧ 1 ≤ i.quantity)
    (item : ExplCartItem) (hmem : item ∈ cart.items) :
    lineTotal item ≤ cartTotal cart := by
  unfold cartTotal
  refine List.single_le_sum ?_ _ (List.mem_map_of_mem lineTotal hmem)
  intro x hx
  rcases List.mem_map.mp hx with ⟨j, hj, rfl⟩
  exact lineTotal_nonneg j (hItems j hj).1 (hItems j hj).2

/-- C7: every alternative produced by `get_optimization_suggestions` keeps
the resulting cart total nonnegative, and reduce-quantity suggestions come
only from items with quantity strictly above 1, proposing quantity minus 1
with savings equal to the unit price (so the suggested quantity is at least
1). -/
theorem optimization_suggestions_safe (cart : ExplCart) (corpus : List SpecProduct)
    (hItems : ∀ i ∈ cart.items, 0 ≤ i.unit_price ∧ 1 ≤ i.quantity)
    (hCorpus : ∀ p ∈ corpus, 0 ≤ p.price) :
    ∀ alt ∈ get_optimization_suggestions cart corpus,
      0 ≤ resultingTotal cart alt ∧
      (∀ item sq sv, alt = Alternative.reduceQuantity item sq sv →
        1 ≤ sq ∧ item ∈ cart.items ∧ 1 < item.quantity ∧
          sq = item.quantity - 1 ∧ sv = item.unit_price) := by
  intro alt halt
  unfold get_optimization_suggestions at halt
  rw [mem_orderSort] at halt
  rcases List.mem_append.mp halt with hrr | hred
  · rcases List.mem_append.mp hrr with hrem | hrep
    · rcases hcart : cart.items with _ | ⟨i, rest⟩ <;> rw [hcart] at hrem
      · cases hrem
      · simp only [List.mem_singleton] at hrem
        subst hrem
        have hm : pickBy (fun a b => decide (lineTotal b < lineTotal a)) i rest ∈
            cart.items := by
          rw [hcart]; exact pickBy_mem _ rest i
        refine ⟨?_, ?_⟩
        · have := lineTotal_le_cartTotal cart hItems _ hm
          simp only [resultingTotal, altSavings]
          linarith
        · intro item sq sv he
          cases he
    · rcases List.mem_filterMap.mp hrep with ⟨item, hitem, hsome⟩
      rcases hcheap : cheaperAlt corpus item with _ | a <;> rw [hcheap] at hsome
      · cases hsome
      · injection hsome with h'
        subst h'
        have hspec := cheaperAlt_spec corpus item a hcheap
        refine ⟨?_, ?_⟩
        · have hline := lineTotal_le_cartTotal cart hItems item hitem
          have hap : 0 ≤ a.price := hCorpus a hspec.1
          have hiq := (hItems item hitem).2
          have hq' : (0 : ℚ) ≤ (item.quantity : ℚ) := by
            exact_mod_cast (by omega : (0 : ℤ) ≤ item.quantity)
          have hsav : (item.unit_price - a.price) * (item.quantity : ℚ) ≤
              lineTotal item := by
            unfold lineTotal
            apply mul_le_mul_of_nonneg_right _ hq'
            linarith
          simp only [resultingTotal, altSavings]
          linarith
        · intro item' sq sv he
          cases he
  · rcases List.mem_map.mp hred with ⟨item, hitem, rfl⟩
    have hfil := List.mem_filter.mp hitem
    have hq : 1 < item.quantity := of_decide_eq_true hfil.2
    have hi := hItems item hfil.1
    refine ⟨?_, ?_⟩
    · have hline := lineTotal_le_cartTotal cart hItems item hfil.1
      have hsav : item.unit_price ≤ lineTotal item := by
        unfold lineTotal
        have hq1 : (1 : ℚ) ≤ (item.quantity : ℚ) := by exact_mod_cast hi.2
        nlinarith [hi.1]
      simp only [resultingTotal, altSavings]
      linarith
    · intro item' sq sv he
      injection he with h1 h2 h3
      subst h1
      subst h2
      subst h3
      exact ⟨by omega, hfil.1, hq, rfl, rfl⟩

/-- Witness for C7 at the spec's example 6: for the cart with one item of
price 10 and quantity 3, the generated reduce-quantity suggestion
(quantity 2, savings 10) leaves the resulting total nonnegative. -/
theorem optimization_suggestions_safe_witness :
    0 ≤ resultingTotal ⟨[⟨1, "A", 10, 3⟩], 20⟩
      (Alternative.reduceQuantity ⟨1, "A", 10, 3⟩ 2 10) :=
  (optimization_suggestions_safe ⟨[⟨1, "A", 10, 3⟩], 20⟩ []
      (by intro i hi; rcases List.mem_singleton.mp hi with rfl; constructor <;> norm_num)
      (by intro p hp; cases hp)
      (Alternative.reduceQuantity ⟨1, "A", 10, 3⟩ 2 10)
      (by norm_num [get_optimization_suggestions, orderSort, orderedInsert,
        pickBy, cheaperAlt, lineTotal, altSavings])).1

theorem data_mk (l : List Char) : (String.mk l).data = l := rfl

/-- C9: `normalizePriceDisplay` always returns a string containing the
substring TND, and returns exactly the string of 0 TND for a null or
undefined argument, the empty string, or a string whose cleaning pipeline
(currency stripping and whitespace normalization) leaves nothing. -/
theorem normalizePriceDisplay_contains_TND (ps : Option String) :
    tndChars <:+: (normalizePriceDisplay ps).data ∧
    normalizePriceDisplay none = "0 TND" ∧
    normalizePriceDisplay (some "") = "0 TND" ∧
    (∀ s, ps = some s → cleanedPrice s = [] → normalizePriceDisplay ps = "0 TND") := by
  refine ⟨?_, rfl, rfl, ?_⟩
  · cases ps with
    | none => decide
    | some s =>
      simp only [normalizePriceDisplay]
      split_ifs with h0 h1 h2 h3
      · decide
      · decide
      · rw [data_mk]
        exact h3
      · rw [data_mk]
        exact ⟨cleanedPrice s ++ [' '], [], by simp⟩
      · rw [data_mk]
        exact ⟨cleanedPrice s ++ [' '], [], by simp⟩
  · intro s hs hempty
    subst hs
    simp only [normalizePriceDisplay]
    split_ifs with h0
    · rfl
    · rfl

/-- Witness for C9: the string EUR is nothing but a currency token, cleans
to the empty string, and is rendered as 0 TND. -/
theorem normalizePriceDisplay_contains_TND_witness :
    normalizePriceDisplay (some "EUR") = "0 TND" :=
  (normalizePriceDisplay_contains_TND (some "EUR")).2.2.2 "EUR" rfl (by decide)

theorem exactVal_nonneg (rest : List Char) : 0 ≤ exactVal rest := by
  unfold exactVal
  split
  · exact add_nonneg (Nat.cast_nonneg _)
      (div_nonneg (Nat.cast_nonneg _) (pow_nonneg (by norm_num) _))
  · exact Nat.cast_nonneg _

theorem parseLeadingNum_nonneg (rest : List Char) : (parseLeadingNum rest).nonneg := by
  unfold parseLeadingNum
  split_ifs
  · trivial
  · exact exactVal_nonneg rest

theorem findDigit_eq_none (l : List Char) (h : ∀ c ∈ l, c.isDigit = false) :
    findDigit l = none := by
  induction l with
  | nil => rfl
  | cons c cs ih =>
    simp only [findDigit]
    rw [if_neg]
    · exact ih (fun x hx => h x (List.mem_cons_of_mem c hx))
    · simp [h c (List.mem_cons_self c cs)]

theorem trimChars_subset (l : List Char) : ∀ c ∈ trimChars l, c ∈ l := by
  intro c hc
  unfold trimChars at hc
  rw [List.mem_reverse] at hc
  have h1 := (List.dropWhile_sublist Char.isWhitespace).mem hc
  rw [List.mem_reverse] at h1
  exact (List.dropWhile_sublist Char.isWhitespace).mem h1

theorem replaceFirstComma_subset (l : List Char) :
    ∀ c ∈ replaceFirstComma l, c = '.' ∨ c ∈ l := by
  induction l with
  | nil => intro c hc; cases hc
  | cons a l ih =>
    intro c hc
    simp only [replaceFirstComma] at hc
    split_ifs at hc with ha
    · rcases List.mem_cons.mp hc with rfl | h
      · exact Or.inl rfl
      · exact Or.inr (List.mem_cons_of_mem a h)
    · rcases List.mem_cons.mp hc with rfl | h
      · exact Or.inr (List.mem_cons_self c l)
      · rcases ih c h with h' | h'
        · exact Or.inl h'
        · exact Or.inr (List.mem_cons_of_mem a h')

theorem cleanedNumeric_no_digit (s : String)
    (h : ∀ c ∈ s.data, c.isDigit = false) :
    ∀ c ∈ cleanedNumeric s, c.isDigit = false := by
  intro c hc
  have h1 := trimChars_subset _ c hc
  rcases replaceFirstComma_subset _ c h1 with rfl | h2
  · decide
  · have h3 := List.mem_of_mem_filter (List.mem_of_mem_filter h2)
    exact h c h3

theorem digitsVal_replicate_nine (n : ℕ) :
    ∀ a, (List.replicate n '9').foldl (fun a c => 10 * a + (c.toNat - 48)) a + 1 =
      (a + 1) * 10 ^ n := by
  induction n with
  | zero => intro a; simp
  | succ n ih =>
    intro a
    rw [List.replicate_succ, List.foldl_cons]
    rw [ih (10 * a + ('9'.toNat - 48))]
    have h9 : '9'.toNat - 48 = 9 := by decide
    rw [h9, pow_succ]
    ring

theorem doubleOverflow_le_val :
    doubleOverflow ≤ (digitsVal (List.replicate 310 '9') : ℚ) := by
  have h2 : digitsVal (List.replicate 310 '9') + 1 = 10 ^ 310 := by
    have h := digitsVal_replicate_nine 310 0
    rw [zero_add, one_mul] at h
    exact h
  have hc := congrArg (fun n : ℕ => (n : ℚ)) h2
  simp only [Nat.cast_add, Nat.cast_pow, Nat.cast_ofNat, Nat.cast_one] at hc
  have hb : (2 : ℚ) ^ 1024 - 2 ^ 970 ≤ 10 ^ 310 - 1 := by norm_num
  unfold doubleOverflow
  linarith

set_option maxRecDepth 10000 in
/-- C10 as stated is false on the code: for a price string of 310 nines the
matched digit value lies beyond the IEEE-754 double range, `parseFloat`
saturates to Infinity, and `extractPriceValue` does not return a finite
number. -/
theorem extractPriceValue_overflows_to_infinity :
    extractPriceValue (some (String.mk (List.replicate 310 '9'))) = JSNum.infinity := by
  have hne : String.mk (List.replicate 310 '9') ≠ "" := by decide
  have h1 : cleanedNumeric (String.mk (List.replicate 310 '9')) =
      List.replicate 310 '9' := by decide
  have h2 : findDigit (List.replicate 310 '9') = some (List.replicate 310 '9') := by
    decide
  have htake : List.takeWhile Char.isDigit (List.replicate 310 '9') =
      List.replicate 310 '9' := by decide
  have hdrop : List.dropWhile Char.isDigit (List.replicate 310 '9') = [] := by decide
  have h3 : exactVal (List.replicate 310 '9') =
      (digitsVal (List.replicate 310 '9') : ℚ) := by
    simp [exactVal, htake, hdrop]
  simp only [extractPriceValue, if_neg hne, h1, h2]
  unfold parseLeadingNum
  rw [if_pos]
  rw [h3]
  exact doubleOverflow_le_val

/-- C10 amended: `extractPriceValue` is total over all inputs (null,
undefined or any string) and never negative: it returns `Infinity` only
when the matched value reaches the double overflow threshold and the
finite exact match value below it; a null, undefined, empty or digit-free
input yields exactly 0. -/
theorem extractPriceValue_nonneg_total (ps : Option String) :
    (extractPriceValue ps).nonneg ∧
    extractPriceValue none = JSNum.finite 0 ∧
    (∀ s, ps = some s → (∀ c ∈ s.data, c.isDigit = false) →
      extractPriceValue ps = JSNum.finite 0) ∧
    (∀ s rest, ps = some s → s ≠ "" →
      findDigit (cleanedNumeric s) = some rest → exactVal rest < doubleOverflow →
      extractPriceValue ps = JSNum.finite (exactVal rest)) := by
  refine ⟨?_, rfl, ?_, ?_⟩
  · cases ps with
    | none => exact le_refl 0
    | some s =>
      simp only [extractPriceValue]
      split_ifs
      · exact le_refl 0
      · split
        · exact le_refl 0
        · exact parseLeadingNum_nonneg _
  · intro s hs hnd
    subst hs
    have hfd : findDigit (cleanedNumeric s) = none :=
      findDigit_eq_none _ (cleanedNumeric_no_digit s hnd)
    simp [extractPriceValue, hfd]
  · intro s rest hs hne hfd hlt
    subst hs
    simp only [extractPriceValue, if_neg hne, hfd]
    unfold parseLeadingNum
    rw [if_neg (not_le.mpr hlt)]

/-- Witness for the amended C10: a digit-free string yields exactly 0. -/
theorem extractPriceValue_nonneg_total_witness :
    extractPriceValue (some "abc") = JSNum.finite 0 :=
  (extractPriceValue_nonneg_total (some "abc")).2.2.1 "abc" rfl (by decide)

end Minerva
